import Mathlib

/-!
Verification of the AI-response post-processing pipeline and the journal
persistence logic of the `ai-daily-goal-journal` repository, shallowly
embedded from `src/ai_client.py` and `src/main.py`.

Model responses from the external chat-completion endpoint are free-form
strings; the code parses them with `json.loads` (Python stdlib).  The
embedding therefore quantifies over the parse outcome: an `Option Json`
value (`none` models a `json.loads` exception).  Every other piece of
logic is translated directly from the source.
-/

namespace JournalApp

/-! ## Python string primitives (ASCII fragment used by the app) -/

/-- Python whitespace characters recognised by `str.strip` / regex `\s`
    (ASCII fragment). -/
def isPySpace (c : Char) : Bool :=
  c == ' ' || c == '\t' || c == '\n' || c == '\r' || c == '\x0b' || c == '\x0c'

/-- Drop `p`-satisfying characters from both ends of a character list. -/
def dropEnds (p : Char → Bool) (l : List Char) : List Char :=
  (((l.dropWhile p).reverse).dropWhile p).reverse

/-- Python `str.strip()` (ASCII whitespace). -/
def pyStrip (s : String) : String :=
  String.mk (dropEnds isPySpace s.toList)

/-- Python `str.lower()` (ASCII fragment). -/
def pyLower (s : String) : String :=
  String.mk (s.toList.map Char.toLower)

/-- Python `s[:n]` (slice of the first `n` characters). -/
def pyTake (s : String) (n : Nat) : String :=
  String.mk (s.toList.take n)

/-- Python `int(s)` on a string: optional sign surrounded by whitespace,
    then one or more digits; anything else raises `ValueError`. -/
def pyIntOfString (s : String) : Except Unit Int :=
  let t := dropEnds isPySpace s.toList
  let core : Int × List Char :=
    match t with
    | '-' :: rest => (-1, rest)
    | '+' :: rest => (1, rest)
    | l => (1, l)
  if core.2 ≠ [] ∧ core.2.all Char.isDigit then
    .ok (core.1 * Int.ofNat (core.2.foldl (fun n c => 10 * n + (c.toNat - 48)) 0))
  else .error ()

/-! ## JSON values (`json.loads` results)

Numbers are modelled as integers: every numeric literal this code ever
produces or consumes as an `order` value is integral. -/

inductive Json where
  | null : Json
  | bool : Bool → Json
  | num : Int → Json
  | str : String → Json
  | arr : List Json → Json
  | obj : List (String × Json) → Json

/-- Python truthiness of a JSON value. -/
def Json.truthy : Json → Bool
  | .null => false
  | .bool b => b
  | .num n => !(n == 0)
  | .str s => !(s == "")
  | .arr l => !l.isEmpty
  | .obj l => !l.isEmpty

/-- Association-list lookup: Python `dict` access by key. -/
def alGet {α : Type} : List (String × α) → String → Option α
  | [], _ => none
  | kv :: l, k => if kv.1 = k then some kv.2 else alGet l k

/-- Association-list update: Python `d[k] = v` (replace in place, else
    append at the end, as CPython dicts do). -/
def alSet {α : Type} : List (String × α) → String → α → List (String × α)
  | [], k, v => [(k, v)]
  | kv :: l, k, v => if kv.1 = k then (k, v) :: l else kv :: alSet l k v

/-- Python `step.get(k)`: `None` when the key is absent; raises
    `AttributeError` when the receiver is not a dict. -/
def jget : Json → String → Except Unit Json
  | .obj kvs, k => .ok ((alGet kvs k).getD Json.null)
  | _, _ => .error ()

/-- Python `(step.get(k) or "").strip()`: the empty string for falsy
    values, the stripped string for truthy strings, and an exception
    (`.strip()` on a non-string) for truthy non-strings. -/
def getStrOr (st : Json) (k : String) : Except Unit String :=
  match jget st k with
  | .error _ => .error ()
  | .ok v =>
    if v.truthy then
      match v with
      | .str s => .ok (pyStrip s)
      | _ => .error ()
    else .ok ""

/-- Python `int(x)` on a JSON value. -/
def pyToInt : Json → Except Unit Int
  | .num n => .ok n
  | .bool b => .ok (if b then 1 else 0)
  | .str s => pyIntOfString s
  | _ => .error ()

/-- Python `int(step.get("order") or dflt)`. -/
def getOrderOr (st : Json) (dflt : Int) : Except Unit Int :=
  match jget st "order" with
  | .error _ => .error ()
  | .ok v => if v.truthy then pyToInt v else .ok dflt

/-! ## `_is_meta_goal_step` (ai_client.py lines 195-221)

The Python function runs `re.search` with fourteen patterns over the
lowercased step text.  Each pattern is of one of four restricted shapes;
they are compiled here by hand into decidable occurrence checks with
Python `\b` word-boundary semantics (`\w = [a-zA-Z0-9_]`, ASCII
fragment). -/

/-- Regex `\w` (ASCII fragment). -/
def isWordChar (c : Char) : Bool := c.isAlpha || c.isDigit || c == '_'

/-- The characters `w` occur in `s` starting at index `i`. -/
def listAt (s : List Char) (i : Nat) (w : List Char) : Bool :=
  (s.drop i).take w.length == w

/-- Regex `\b` holds just before index `i` (word char at `i`). -/
def leftBdry (s : List Char) (i : Nat) : Bool :=
  i == 0 || !(isWordChar (s.getD (i - 1) ' '))

/-- Regex `\b` holds just after index `i - 1` (word char before `i`). -/
def rightBdry (s : List Char) (i : Nat) : Bool :=
  !(isWordChar (s.getD i ' '))

/-- Word-bounded occurrence of `w` (whose first and last characters are
    word characters) at index `i`. -/
def wordAt (s : List Char) (i : Nat) (w : List Char) : Bool :=
  listAt s i w && leftBdry s i && rightBdry s (i + w.length)

/-- All characters of `s` in index range `[a, b)` satisfy `p`. -/
def rangeAll (s : List Char) (a b : Nat) (p : Char → Bool) : Bool :=
  ((s.drop a).take (b - a)).all p

/-- Bounded existential over indices `0 ≤ k < n`. -/
def existsLe (n : Nat) (p : Nat → Bool) : Bool :=
  (List.range n).any p

/-- Pattern shape `\bW\b[^\n]*\bgoals?\b` for a verb alternative set `W`
    (covers eleven of the fourteen patterns). -/
def verbThenGoal (s : List Char) (verbs : List (List Char)) : Bool :=
  existsLe (s.length + 1) fun i =>
    verbs.any fun w =>
      wordAt s i w &&
      existsLe (s.length + 1) fun j =>
        decide (i + w.length ≤ j) &&
        rangeAll s (i + w.length) j (fun c => !(c == '\n')) &&
        (wordAt s j ("goal".toList) || wordAt s j ("goals".toList))

/-- Pattern `\bgoal[-\s]?setting\b`. -/
def goalSettingPat (s : List Char) : Bool :=
  existsLe (s.length + 1) fun i =>
    wordAt s i ("goalsetting".toList) ||
    (listAt s i ("goal".toList) &&
     (match s.get? (i + 4) with
      | some c => c == '-' || isPySpace c
      | none => false) &&
     listAt s (i + 5) ("setting".toList) &&
     leftBdry s i && rightBdry s (i + 12))

/-- Pattern `\b(create|develop|build|draft|make|outline|design)\b[^\n]*\baction\s*plan\b`. -/
def actionPlanPat (s : List Char) : Bool :=
  existsLe (s.length + 1) fun i =>
    (["create", "develop", "build", "draft", "make", "outline", "design"].map
        String.toList).any fun w =>
      wordAt s i w &&
      existsLe (s.length + 1) fun j =>
        decide (i + w.length ≤ j) &&
        rangeAll s (i + w.length) j (fun c => !(c == '\n')) &&
        leftBdry s j && listAt s j ("action".toList) &&
        existsLe (s.length + 1) fun k =>
          decide (j + 6 ≤ k) && rangeAll s (j + 6) k isPySpace &&
          listAt s k ("plan".toList) && rightBdry s (k + 4)

/-- Pattern `\bplan\s+your\s+(approach|actions|steps)\b`. -/
def planYourPat (s : List Char) : Bool :=
  existsLe (s.length + 1) fun i =>
    leftBdry s i && listAt s i ("plan".toList) &&
    existsLe (s.length + 1) fun j =>
      decide (i + 5 ≤ j) && rangeAll s (i + 4) j isPySpace &&
      listAt s j ("your".toList) &&
      existsLe (s.length + 1) fun k =>
        decide (j + 5 ≤ k) && rangeAll s (j + 4) k isPySpace &&
        (["approach", "actions", "steps"].map String.toList).any fun w =>
          listAt s k w && rightBdry s (k + w.length)

/-- `_is_meta_goal_step(lower_combo)`: true when the lowercased step text
    matches any of the meta goal-setting patterns. -/
def is_meta_goal_step (lower_combo : String) : Bool :=
  if lower_combo == "" then false
  else
    let s := lower_combo.toList
    verbThenGoal s [("set".toList), ("setting".toList)] ||
    verbThenGoal s [("define".toList)] ||
    verbThenGoal s [("clarify".toList)] ||
    verbThenGoal s [("refine".toList)] ||
    verbThenGoal s [("establish".toList)] ||
    verbThenGoal s [("determine".toList)] ||
    verbThenGoal s [("articulate".toList)] ||
    verbThenGoal s [("choose".toList)] ||
    verbThenGoal s [("identify".toList)] ||
    goalSettingPat s ||
    verbThenGoal s [("smart".toList)] ||
    (existsLe (s.length + 1) fun i => wordAt s i ("set personal goals".toList)) ||
    actionPlanPat s ||
    planYourPat s

/-! ## Plan steps (`get_goal_breakdown`, ai_client.py lines 128-193)

A step record as built by the code: all five keys are always present with
the types the code assigns, so a structure is a faithful model of the
appended dicts. -/

structure Step where
  id : String
  title : String
  description : String
  expected_outcome : String
  order : Int
deriving DecidableEq, Repr

/-- Replacement character map of `re.sub(r"[^a-z0-9-]", "-", ·)`. -/
def kebabChar (c : Char) : Char :=
  if c.isLower || c.isDigit || c == '-' then c else '-'

/-- `re.sub(r"[^a-z0-9-]", "-", sid.lower()).strip("-")[:48] or fallback`. -/
def kebab (sid : String) (fallback : String) : String :=
  let t := String.mk ((dropEnds (· == '-') ((pyLower sid).toList.map kebabChar)).take 48)
  if t == "" then fallback else t

/-- Python `step.get("id") or title or f"step-{idx}"` followed by
    `.lower()` inside `re.sub` — a truthy non-string id raises. -/
def getSid (st : Json) (title : String) (fallbackIdx : Nat) : Except Unit String :=
  match jget st "id" with
  | .error _ => .error ()
  | .ok v =>
    if v.truthy then
      match v with
      | .str s => .ok s
      | _ => .error ()
    else .ok (if title == "" then "step-" ++ Nat.repr fallbackIdx else title)

/-- Loop body of the primary parse (lines 143-159): `none` models
    `continue`, `.error` an exception that aborts the whole `try` block. -/
def processRawStep (idx : Nat) (j : Json) : Except Unit (Option Step) :=
  match j with
  | Json.obj _ =>
    match getStrOr j "title" with
    | .error _ => .error ()
    | .ok title =>
    match getStrOr j "description" with
    | .error _ => .error ()
    | .ok desc =>
    if is_meta_goal_step (pyLower (title ++ " " ++ desc)) then .ok none
    else
      match getSid j title idx with
      | .error _ => .error ()
      | .ok sidRaw =>
      let sid := kebab sidRaw ("step-" ++ Nat.repr idx)
      match getStrOr j "expected_outcome" with
      | .error _ => .error ()
      | .ok eo =>
      match getOrderOr j (Int.ofNat idx) with
      | .error _ => .error ()
      | .ok ord =>
        .ok (some { id := sid,
                    title := if pyTake title 80 == "" then sid else pyTake title 80,
                    description := pyTake desc 220,
                    expected_outcome := pyTake eo 160,
                    order := ord })
  | _ => .ok none

/-- `for idx, step in enumerate(raw_steps, start=1)` under the `try`:
    an exception anywhere discards every step collected so far. -/
def stepsLoop : Nat → List Json → Except Unit (List Step)
  | _, [] => .ok []
  | idx, j :: rest =>
    match processRawStep idx j with
    | .error _ => .error ()
    | .ok o =>
      match stepsLoop (idx + 1) rest with
      | .error _ => .error ()
      | .ok l => .ok (match o with | some s => s :: l | none => l)

/-- `data.get("steps") if isinstance(data, dict) else None`, keeping the
    value only when it is a list (`none` also models a `json.loads`
    exception upstream). -/
def stepsArr : Option Json → Option (List Json)
  | some (Json.obj kvs) =>
    match (alGet kvs "steps").getD Json.null with
    | Json.arr l => some l
    | _ => none
  | _ => none

/-- Steps parsed and filtered from the first model response. -/
def primaryStepsOf (parsed : Option Json) : List Step :=
  match stepsArr parsed with
  | some items =>
    match stepsLoop 1 items with
    | .ok l => l
    | .error _ => []
  | none => []

/-- Stable insertion of `a` into a key-sorted list (equal keys keep their
    original relative order, as Python's stable `list.sort` does). -/
def insertByKey {α : Type} (key : α → Int) (a : α) : List α → List α
  | [] => [a]
  | b :: l => if key a ≤ key b then a :: b :: l else b :: insertByKey key a l

/-- Stable sort by an integer key, modelling
    `steps.sort(key=lambda s: s.get("order", 0))` (every extensionally
    stable sort agrees with Python's Timsort on the same key). -/
def sortByKey {α : Type} (key : α → Int) : List α → List α
  | [] => []
  | a :: l => insertByKey key a (sortByKey key l)

/-- Adjacent-pairs sortedness check by an integer key. -/
def isSortedByKey {α : Type} (key : α → Int) : List α → Bool
  | [] => true
  | [_] => true
  | a :: b :: l => decide (key a ≤ key b) && isSortedByKey key (b :: l)

/-- The primary steps after `steps.sort(key=...)` (line 163). -/
def sortedPrimary (parsed : Option Json) : List Step :=
  sortByKey (fun s => s.order) (primaryStepsOf parsed)

/-- `_generate_concrete_steps` (lines 223-250) applied to the parsed
    backfill response: the raw `steps` list when the response parses to a
    dict with a list under `"steps"`, else `[]`. -/
def genConcreteSteps : Option Json → List Json
  | some (Json.obj kvs) =>
    match (alGet kvs "steps").getD Json.null with
    | Json.arr l => l
    | _ => []
  | _ => []

/-- Loop body of the backfill append (lines 170-186): `none` models
    `continue`, `.error` an exception caught by `except: pass`. -/
def processBackfillStep (acc : List Step) (st : Json) : Except Unit (Option Step) :=
  match getStrOr st "title" with
  | .error _ => .error ()
  | .ok title =>
  match getStrOr st "description" with
  | .error _ => .error ()
  | .ok desc =>
  if title == "" then .ok none
  else if is_meta_goal_step (pyLower (title ++ " " ++ desc)) then .ok none
  else if acc.any (fun x => pyLower title == pyLower x.title) then .ok none
  else
    match getSid st title (acc.length + 1) with
    | .error _ => .error ()
    | .ok sidRaw =>
    let sid := kebab sidRaw ("step-" ++ Nat.repr (acc.length + 1))
    match getStrOr st "expected_outcome" with
    | .error _ => .error ()
    | .ok eo =>
    match getOrderOr st (Int.ofNat (acc.length + 1)) with
    | .error _ => .error ()
    | .ok ord =>
      .ok (some { id := sid, title := pyTake title 80, description := pyTake desc 220,
                  expected_outcome := pyTake eo 160, order := ord })

/-- `for st in backfill:` inside `try ... except Exception: pass` — an
    exception aborts the loop but keeps the steps appended so far. -/
def backfillLoop : List Step → List Json → List Step
  | acc, [] => acc
  | acc, st :: rest =>
    match processBackfillStep acc st with
    | .error _ => acc
    | .ok none => backfillLoop acc rest
    | .ok (some s) => backfillLoop (acc ++ [s]) rest

/-- The arguments of the one `_generate_concrete_steps` call. -/
structure BackfillCall where
  existing_titles : List String
  start_order : Nat
  count : Nat
deriving DecidableEq, Repr

/-- The observable outcome of one `get_goal_breakdown` run: its returned
    steps and the model calls it made. -/
structure BreakdownRun where
  steps : List Step
  primaryCalled : Bool
  backfillCalls : List BackfillCall
deriving DecidableEq, Repr

/-- The step list just before `steps = steps[:8]` (line 190): sorted
    primary steps, extended by the backfill loop when fewer than 8. -/
def preTrimSteps (goal : String) (parsed bf : Option Json) : List Step :=
  let sorted := sortedPrimary parsed
  if pyStrip goal ≠ "" ∧ sorted.length < 8 then
    backfillLoop sorted (genConcreteSteps bf)
  else sorted

/-- The backfill calls issued (lines 165-168). -/
def backfillCallsOf (goal : String) (parsed : Option Json) : List BackfillCall :=
  let sorted := sortedPrimary parsed
  if pyStrip goal ≠ "" ∧ sorted.length < 8 then
    [⟨sorted.map (fun s => s.title), sorted.length + 1, 8 - sorted.length⟩]
  else []

/-- `for i, s in enumerate(steps, start=1): s["order"] = i`. -/
def renumberFrom : Nat → List Step → List Step
  | _, [] => []
  | i, s :: l => { s with order := Int.ofNat i } :: renumberFrom (i + 1) l

/-- Renumber orders to `1..n` (lines 191-192). -/
def renumber (l : List Step) : List Step := renumberFrom 1 l

/-- `get_goal_breakdown(goal)` as a function of the goal and the parsed
    model responses (`parsed`: first response after regex extraction and
    `json.loads`; `bf`: likewise for the backfill response). -/
def get_goal_breakdown (goal : String) (parsed bf : Option Json) : BreakdownRun :=
  if pyStrip goal == "" then ⟨[], false, []⟩
  else
    ⟨renumber ((preTrimSteps goal parsed bf).take 8), true, backfillCallsOf goal parsed⟩

/-- Two steps of the list share a case-insensitively equal title. -/
def hasDupTitleLower : List Step → Bool
  | [] => false
  | s :: rest =>
    rest.any (fun x => pyLower x.title == pyLower s.title) || hasDupTitleLower rest

/-- The lowercased combo `f"{title} {desc}".lower()` that the meta filter
    inspects, when both field extractions succeed. -/
def checkedCombo (st : Json) : Option String :=
  match getStrOr st "title", getStrOr st "description" with
  | .ok t, .ok d => some (pyLower (t ++ " " ++ d))
  | _, _ => none

/-! ## Regex extraction `_plan_json_pattern = re.compile(r"\{[\s\S]*\}")`

`re.search` with this greedy pattern matches from the first `{` to the
last `}` (when the latter comes after the former); otherwise there is no
match and the raw (stripped) text goes to `json.loads` unchanged. -/

/-- Index of the first character satisfying `p`. -/
def firstIdx (p : Char → Bool) : List Char → Option Nat
  | [] => none
  | c :: cs => if p c then some 0 else (firstIdx p cs).map (· + 1)

/-- Index of the last character satisfying `p`. -/
def lastIdxP (p : Char → Bool) : List Char → Option Nat
  | [] => none
  | c :: cs =>
    match lastIdxP p cs with
    | some k => some (k + 1)
    | none => if p c then some 0 else none

/-- The span matched by `re.search(r"\{[\s\S]*\}", ·)`. -/
def braceSpan (cs : List Char) : Option (List Char) :=
  match firstIdx (· == '{') cs, lastIdxP (· == '}') cs with
  | some i, some j => if i < j then some ((cs.drop i).take (j - i + 1)) else none
  | _, _ => none

/-- `text = raw.strip(); m = _plan_json_pattern.search(text);`
    `if m: text = m.group(0)` (lines 134-137). -/
def extractPlanJson (raw : String) : String :=
  let t := pyStrip raw
  match braceSpan t.toList with
  | some sub => String.mk sub
  | none => t

/-- Whether the plan-JSON regex matches the stripped raw response. -/
def hasBraceMatch (s : String) : Bool :=
  (braceSpan (pyStrip s).toList).isSome

/-! ## The in-memory TTL cache (ai_client.py lines 30-48, 98-116, 264-278)

`_cache: dict[str, tuple[float, str]]`, keyed by hex digests.  The digest
function (stdlib `hashlib.sha256` over the concatenated field encodings)
is modelled by the concatenated hash input itself: the only property of
the digest the code relies on is that equal hash inputs give equal keys,
which the stand-in preserves exactly.  Timestamps are integers. -/

abbrev Cache := List (String × Int × String)

/-- `CACHE_TTL_SECONDS` (default `AI_CACHE_TTL` of 600 seconds). -/
def CACHE_TTL_SECONDS : Int := 600

/-- `_cache.get(key)`. -/
def cGet (c : Cache) (k : String) : Option (Int × String) := alGet c k

/-- `_cache[key] = value`. -/
def cSet (c : Cache) (k : String) (v : Int × String) : Cache := alSet c k v

/-- The dataclass `CoachingContext`. -/
structure CoachingContext where
  goal : Option String
  recent_entries : String
  journal_name : Option String := none
  max_tokens : Int := 350
deriving DecidableEq, Repr

/-- `CoachingContext.cache_key`: sha256 over
    `(goal or "") + recent_entries + (journal_name or "") + str(max_tokens)`
    (digest modelled by its hash input, see the section comment). -/
def cache_key (ctx : CoachingContext) : String :=
  ctx.goal.getD "" ++ ctx.recent_entries ++ ctx.journal_name.getD "" ++ toString ctx.max_tokens

/-- Outcome of a cache-consulting AI call: returned string, cache state
    after the call, and whether the external model was called. -/
structure SuggestRun where
  value : String
  cache : Cache
  modelCalled : Bool
deriving DecidableEq, Repr

/-- `get_coaching_suggestion(context)` at time `now`, where `modelResp`
    stands for the `_call_groq` result of this invocation. -/
def get_coaching_suggestion (ctx : CoachingContext) (now : Int) (modelResp : String)
    (c : Cache) : SuggestRun :=
  let key := cache_key ctx
  match cGet c key with
  | some ev =>
    if now < ev.1 then ⟨ev.2, c, false⟩
    else ⟨modelResp, cSet c key (now + CACHE_TTL_SECONDS, modelResp), true⟩
  | none => ⟨modelResp, cSet c key (now + CACHE_TTL_SECONDS, modelResp), true⟩

/-- The `'eval:' + sha256(goal_part + excerpt + date_str)` key of
    `get_entry_evaluation` (line 271), digest modelled by its input. -/
def eval_cache_key (goal : Option String) (entry_text : String) (date_str : String) : String :=
  let goal_part := match goal with
    | some g => if g == "" then "(No explicit goal)" else pyStrip g
    | none => "(No explicit goal)"
  let excerpt := if pyStrip entry_text == "" then "(No content recorded)" else pyStrip entry_text
  "eval:" ++ goal_part ++ excerpt ++ date_str

/-- `get_entry_evaluation(goal, entry_text, journal_name, date_str)` at
    time `now` (`journal_name` feeds only the prompt, not the key). -/
def get_entry_evaluation (goal : Option String) (entry_text : String)
    (_journal_name : Option String) (date_str : String) (now : Int) (modelResp : String)
    (c : Cache) : SuggestRun :=
  let key := eval_cache_key goal entry_text date_str
  match cGet c key with
  | some ev =>
    if now < ev.1 then ⟨ev.2, c, false⟩
    else ⟨modelResp, cSet c key (now + CACHE_TTL_SECONDS, modelResp), true⟩
  | none => ⟨modelResp, cSet c key (now + CACHE_TTL_SECONDS, modelResp), true⟩

/-- One AI-client operation, as it acts on the `_cache` dict
    (`get_goal_breakdown` never reads or writes `_cache`). -/
inductive AiOp where
  | coach (ctx : CoachingContext) (now : Int) (resp : String)
  | evalEntry (goal : Option String) (entryText : String) (journalName : Option String)
      (dateStr : String) (now : Int) (resp : String)
  | breakdown (goal : String) (parsed bf : Option Json)

/-- Effect of one operation on the cache. -/
def AiOp.applyCache : AiOp → Cache → Cache
  | .coach ctx now resp, c => (get_coaching_suggestion ctx now resp c).cache
  | .evalEntry g e jn d now resp, c => (get_entry_evaluation g e jn d now resp c).cache
  | .breakdown _ _ _, c => c

/-- The single cache key an operation may write. -/
def AiOp.writesKey : AiOp → Option String
  | .coach ctx _ _ => some (cache_key ctx)
  | .evalEntry g e _ d _ _ => some (eval_cache_key g e d)
  | .breakdown _ _ _ => none

/-- Cache state after a sequence of AI-client operations. -/
def applyOps (ops : List AiOp) (c : Cache) : Cache :=
  ops.foldl (fun c op => op.applyCache c) c

/-! ## `_normalize_steps` (main.py lines 366-381)

Steps read back from MongoDB are arbitrary JSON, so the input is a
`Json` value and each step a key-value list.  The `try: steps.sort(...)`
is modelled for integer (and boolean, which Python compares as integers)
`'order'` values; on other key types the comparison may raise
`TypeError`, which the code swallows leaving the list unsorted —
modelled by leaving the list unchanged. -/

/-- The sort key `s.get('order', 0)` as an integer, when it is one. -/
def jOrderVal : Json → Option Int
  | .num n => some n
  | .bool b => some (if b then 1 else 0)
  | _ => none

/-- `s.get('order', 0)`. -/
def dictOrderKey (kvs : List (String × Json)) : Json :=
  (alGet kvs "order").getD (Json.num 0)

/-- The integer sort key of a step dict (only meaningful on sortable
    dicts). -/
def dictKeyInt (kvs : List (String × Json)) : Int :=
  (jOrderVal (dictOrderKey kvs)).getD 0

/-- All step dicts have integer-comparable `'order'` keys. -/
def allOrdersSortable (l : List (List (String × Json))) : Bool :=
  l.all fun s => (jOrderVal (dictOrderKey s)).isSome

/-- `try: steps.sort(key=lambda s: s.get('order', 0)) except: pass`. -/
def normalizeSort (l : List (List (String × Json))) : List (List (String × Json)) :=
  if allOrdersSortable l then sortByKey dictKeyInt l else l

/-- `if not isinstance(steps, list): steps = []` followed by
    `[s for s in steps if isinstance(s, dict)]`. -/
def dictsOf : Json → List (List (String × Json))
  | .arr l => l.filterMap (fun s => match s with | Json.obj kvs => some kvs | _ => none)
  | _ => []

/-- Loop body: `s['order'] = i; if 'completed' not in s: s['completed'] = False`. -/
def finishOne (i : Nat) (s : List (String × Json)) : List (String × Json) :=
  let s := alSet s "order" (Json.num (Int.ofNat i))
  if (alGet s "completed").isSome then s else alSet s "completed" (Json.bool false)

/-- `for i, s in enumerate(steps, start=1): ...`. -/
def normalizeFinish : Nat → List (List (String × Json)) → List (List (String × Json))
  | _, [] => []
  | i, s :: rest => finishOne i s :: normalizeFinish (i + 1) rest

/-- `_normalize_steps(steps)`. -/
def _normalize_steps (j : Json) : List (List (String × Json)) :=
  let d := normalizeSort (dictsOf j)
  let d := if d.length > 8 then d.take 8 else d
  normalizeFinish 1 d

/-! ## `create_entry` (main.py lines 213-243)

The per-day entry documents.  The model starts after the cookie and
journal-ownership checks (pure CRUD guards that abort without touching
`journal_entries`); `find_one` returns the first matching document and
`insert_one` appends. -/

structure EntryDoc where
  oid : Nat
  journal_id : String
  user_id : String
  date : String
  text : String
deriving DecidableEq, Repr

/-- `entries_collection.find_one({journal_id, user_id, date})`. -/
def findEntry (coll : List EntryDoc) (jid uid date : String) : Option EntryDoc :=
  coll.find? fun e => e.journal_id == jid && e.user_id == uid && e.date == date

/-- `update_one({"_id": eid}, {"$set": {"text": t}})`. -/
def updateTextById : List EntryDoc → Nat → String → List EntryDoc
  | [], _, _ => []
  | e :: l, oid, t => if e.oid = oid then { e with text := t } :: l else e :: updateTextById l oid t

/-- `date if date else server_date` / `client_time or server_time`. -/
def resolveOpt (o : Option String) (dflt : String) : String :=
  match o with
  | some s => if s == "" then dflt else s
  | none => dflt

/-- `create_entry` body from the `text = data.get("text","").strip()`
    line on: append the timestamped line to today's document when one
    exists, else insert a new document. -/
def create_entry (coll : List EntryDoc) (jid uid : String) (rawText : String)
    (dateOpt : Option String) (serverDate : String) (timeOpt : Option String)
    (serverTime : String) (freshId : Nat) : Except String (List EntryDoc × String) :=
  let text := pyStrip rawText
  if text == "" then .error "Text required"
  else
    let date := resolveOpt dateOpt serverDate
    let time_str := resolveOpt timeOpt serverTime
    let line := "[" ++ time_str ++ "] " ++ text
    match findEntry coll jid uid date with
    | some e =>
      .ok (updateTextById coll e.oid (if e.text == "" then line else e.text ++ "\n" ++ line),
           "Entry appended")
    | none => .ok (coll ++ [⟨freshId, jid, uid, date, line⟩], "Entry created")

/-- Key under which entry documents must be unique. -/
def entryKey (e : EntryDoc) : String × String × String :=
  (e.journal_id, e.user_id, e.date)

/-- At most one entry document per `(journal_id, user_id, date)`. -/
def entriesKeyInv (coll : List EntryDoc) : Prop :=
  List.Pairwise (fun a b => entryKey a ≠ entryKey b) coll

/-! ## `coach_evaluate_entry` (main.py lines 416-452)

Evaluation documents; the model starts after the auth/journal guards.
`modelResp` stands for the `get_entry_evaluation` result. -/

structure EvalDoc where
  journal_id : String
  user_id : String
  date : String
  evaluation : String
deriving DecidableEq, Repr

/-- `evaluations_collection.find_one({journal_id, user_id, date})`. -/
def findEval (evals : List EvalDoc) (jid uid date : String) : Option EvalDoc :=
  evals.find? fun d => d.journal_id == jid && d.user_id == uid && d.date == date

/-- `coach_evaluate_entry` body from the evaluation lookup on: return
    today's stored evaluation if present, else require today's entry,
    delete stale evaluations, and insert today's. -/
def coach_evaluate_entry (evals : List EvalDoc) (entries : List EntryDoc)
    (jid uid isoToday padded unpadded : String) (modelResp : String) :
    Except String (String × List EvalDoc × Bool) :=
  match findEval evals jid uid isoToday with
  | some e => .ok (e.evaluation, evals, false)
  | none =>
    match entries.find? (fun e => e.journal_id == jid && e.user_id == uid &&
        (e.date == padded || e.date == unpadded)) with
    | none => .error "No entry found for today to evaluate"
    | some _ =>
      let kept := evals.filter fun d =>
        !(d.journal_id == jid && d.user_id == uid && !(d.date == isoToday))
      .ok (modelResp, kept ++ [⟨jid, uid, isoToday, modelResp⟩], true)

/-- At most one evaluation document per `(journal_id, user_id)`. -/
def evalsKeyInv (evals : List EvalDoc) : Prop :=
  List.Pairwise (fun a b => (a.journal_id, a.user_id) ≠ (b.journal_id, b.user_id)) evals

/-! ## Concrete model responses used as test inputs -/

/-- A parsed model response whose only step carries just a kebab-case id
    `"set-goals"` (empty title and description). -/
def metaIdResponse : Option Json :=
  some (Json.obj [("steps", Json.arr [Json.obj [("id", Json.str "set-goals")]])])

/-- A parsed step dict with a single benign title. -/
def benignStepJson : Json := Json.obj [("title", Json.str "Read a book")]

/-- A parsed model response repeating the same step title twice. -/
def dupTitleResponse : Option Json :=
  some (Json.obj [("steps", Json.arr
    [Json.obj [("title", Json.str "Run daily")],
     Json.obj [("title", Json.str "Run daily")]])])

/-- A parsed first response with a single step of order 5. -/
def orderFiveResponse : Option Json :=
  some (Json.obj [("steps", Json.arr
    [Json.obj [("title", Json.str "A"), ("order", Json.num 5)]])])

/-- A parsed backfill response with a single step of order 1. -/
def orderOneBackfill : Option Json :=
  some (Json.obj [("steps", Json.arr
    [Json.obj [("title", Json.str "B"), ("order", Json.num 1)]])])

/-- A backfill step dict with a fresh title. -/
def freshTitleStep : Json := Json.obj [("title", Json.str "B")]

/-- A raw steps value for `_normalize_steps` with out-of-order integer
    orders. -/
def normListInput : Json :=
  Json.arr [Json.obj [("order", Json.num 2)], Json.obj [("order", Json.num 1)]]

/-! ## Helper lemmas -/

theorem alGet_alSet_self {α : Type} (l : List (String × α)) (k : String) (v : α) :
    alGet (alSet l k v) k = some v := by
  induction l with
  | nil => simp [alGet, alSet]
  | cons kv l ih =>
    by_cases h : kv.1 = k
    · simp [alSet, h, alGet]
    · simp [alSet, h, alGet, ih]

theorem alGet_alSet_ne {α : Type} (l : List (String × α)) (k k0 : String) (v : α)
    (h : k0 ≠ k) : alGet (alSet l k v) k0 = alGet l k0 := by
  have hk0 : ¬ (k = k0) := fun hh => h hh.symm
  induction l with
  | nil => simp [alGet, alSet, hk0]
  | cons kv l ih =>
    by_cases hkv : kv.1 = k
    · have hne : ¬ (kv.1 = k0) := by rw [hkv]; exact hk0
      simp [alSet, hkv, alGet, hk0, hne]
    · simp [alSet, hkv, alGet, ih]

theorem alGet_alSet_isSome {α : Type} (l : List (String × α)) (k k0 : String) (v : α)
    (h : (alGet l k0).isSome = true) : (alGet (alSet l k v) k0).isSome = true := by
  by_cases hk : k0 = k
  · subst hk; simp [alGet_alSet_self]
  · rw [alGet_alSet_ne l k k0 v hk]; exact h

theorem isSortedByKey_insertByKey {α : Type} (key : α → Int) (a : α) :
    ∀ l : List α, isSortedByKey key l = true →
      isSortedByKey key (insertByKey key a l) = true := by
  intro l
  induction l with
  | nil => intro _; simp [insertByKey, isSortedByKey]
  | cons b l ih =>
    intro h
    by_cases hab : key a ≤ key b
    · simpa [insertByKey, hab, isSortedByKey] using h
    · rw [insertByKey, if_neg hab]
      cases l with
      | nil => simp [insertByKey, isSortedByKey]; omega
      | cons c l2 =>
        simp only [isSortedByKey, Bool.and_eq_true, decide_eq_true_eq] at h
        have hrec := ih h.2
        by_cases hac : key a ≤ key c
        · rw [insertByKey, if_pos hac]
          simp only [isSortedByKey, Bool.and_eq_true, decide_eq_true_eq]
          exact ⟨by omega, by simpa [isSortedByKey, hac] using h.2⟩
        · rw [insertByKey, if_neg hac]
          rw [insertByKey, if_neg hac] at hrec
          simp only [isSortedByKey, Bool.and_eq_true, decide_eq_true_eq]
          exact ⟨h.1, hrec⟩

theorem isSortedByKey_sortByKey {α : Type} (key : α → Int) :
    ∀ l : List α, isSortedByKey key (sortByKey key l) = true := by
  intro l
  induction l with
  | nil => simp [sortByKey, isSortedByKey]
  | cons a l ih => exact isSortedByKey_insertByKey key a _ ih

theorem renumberFrom_get? (l : List Step) :
    ∀ i n, (renumberFrom i l).get? n =
      (l.get? n).map (fun s => { s with order := Int.ofNat (i + n) }) := by
  induction l with
  | nil => intro i n; simp [renumberFrom]
  | cons s l ih =>
    intro i n
    cases n with
    | zero => simp [renumberFrom]
    | succ m =>
      simp only [renumberFrom, List.get?_cons_succ, ih (i + 1) m]
      have : i + 1 + m = i + (m + 1) := by omega
      rw [this]

theorem renumberFrom_length (l : List Step) : ∀ i, (renumberFrom i l).length = l.length := by
  induction l with
  | nil => intro i; simp [renumberFrom]
  | cons s l ih => intro i; simp [renumberFrom, ih (i + 1)]

/-- A nonempty Python string stays nonempty under a nonzero slice. -/
theorem pyTake_ne_empty (t : String) (n : Nat) (h : t ≠ "") (hn : n ≠ 0) :
    pyTake t n ≠ "" := by
  cases t with
  | mk data =>
    cases data with
    | nil => exact absurd rfl h
    | cons c cs =>
      cases n with
      | zero => exact absurd rfl hn
      | succ m =>
        intro he
        have hd := congrArg String.data he
        simp [pyTake, String.toList] at hd

/-- Inversion of an accepted backfill step: the checks the code performed
    on the source title and description. -/
theorem processBackfillStep_ok_some {acc : List Step} {st : Json} {s : Step}
    (h : processBackfillStep acc st = Except.ok (some s)) :
    ∃ t d, getStrOr st "title" = .ok t ∧ getStrOr st "description" = .ok d ∧
      t ≠ "" ∧ is_meta_goal_step (pyLower (t ++ " " ++ d)) = false ∧
      (∀ x ∈ acc, pyLower t ≠ pyLower x.title) ∧ s.title = pyTake t 80 := by
  unfold processBackfillStep at h
  split at h
  · exact absurd h (by simp)
  next title ht =>
    split at h
    · exact absurd h (by simp)
    next desc hd =>
      split at h
      · exact absurd h (by simp)
      next hTitleNe =>
        split at h
        · exact absurd h (by simp)
        next hMeta =>
          split at h
          · exact absurd h (by simp)
          next hDup =>
            refine ⟨title, desc, ht, hd, by simpa using hTitleNe, by simpa using hMeta, ?_, ?_⟩
            · have hall : ∀ y ∈ acc, ¬ pyLower title = pyLower y.title := by
                have hng : ¬ (acc.any (fun x => pyLower title == pyLower x.title)) = true := hDup
                simpa using hng
              exact hall
            · split at h
              · exact absurd h (by simp)
              · split at h
                · exact absurd h (by simp)
                · split at h
                  · exact absurd h (by simp)
                  · simp only [Except.ok.injEq, Option.some.injEq] at h
                    subst h; rfl

/-- Inversion of an accepted primary step: the meta filter was applied to
    the parsed (pre-truncation) title/description combo. -/
theorem processRawStep_ok_some {idx : Nat} {j : Json} {s : Step}
    (h : processRawStep idx j = Except.ok (some s)) :
    ∃ c, checkedCombo j = some c ∧ is_meta_goal_step c = false := by
  unfold processRawStep at h
  split at h
  case h_2 => exact absurd h (by simp)
  case h_1 =>
    split at h
    · exact absurd h (by simp)
    next title ht =>
      split at h
      · exact absurd h (by simp)
      next desc hd =>
        split at h
        · exact absurd h (by simp)
        next hMeta =>
          exact ⟨pyLower (title ++ " " ++ desc), by simp [checkedCombo, ht, hd],
            by simpa using hMeta⟩

/-- The backfill loop only appends steps that passed its checks; every
    appended step has a nonempty title. -/
theorem backfillLoop_append (sts : List Json) :
    ∀ acc, ∃ added, backfillLoop acc sts = acc ++ added ∧ ∀ s ∈ added, s.title ≠ "" := by
  induction sts with
  | nil => intro acc; exact ⟨[], by simp [backfillLoop], by simp⟩
  | cons st rest ih =>
    intro acc
    rw [backfillLoop]
    cases hp : processBackfillStep acc st with
    | error e => exact ⟨[], by simp, by simp⟩
    | ok o =>
      cases o with
      | none => exact ih acc
      | some s =>
        obtain ⟨added, heq, hprop⟩ := ih (acc ++ [s])
        refine ⟨s :: added, by simp [heq], ?_⟩
        intro x hx
        rcases List.mem_cons.mp hx with hx | hx
        · subst hx
          obtain ⟨t, d, _, _, htne, _, _, hst⟩ := processBackfillStep_ok_some hp
          rw [hst]
          exact pyTake_ne_empty t 80 htne (by omega)
        · exact hprop x hx

theorem finishOne_order (i : Nat) (s : List (String × Json)) :
    alGet (finishOne i s) "order" = some (Json.num (Int.ofNat i)) := by
  unfold finishOne
  by_cases hc : (alGet (alSet s "order" (Json.num (Int.ofNat i))) "completed").isSome = true
  · simp only [hc, if_true]
    exact alGet_alSet_self s "order" _
  · simp only [hc, if_false, Bool.false_eq_true]
    rw [alGet_alSet_ne _ "completed" "order" _ (by decide)]
    exact alGet_alSet_self s "order" _

theorem finishOne_completed (i : Nat) (s : List (String × Json)) :
    (alGet (finishOne i s) "completed").isSome = true := by
  unfold finishOne
  by_cases hc : (alGet (alSet s "order" (Json.num (Int.ofNat i))) "completed").isSome = true
  · rw [if_pos hc]
    exact hc
  · rw [if_neg hc, alGet_alSet_self]
    rfl

theorem normalizeFinish_get? (l : List (List (String × Json))) :
    ∀ i n, (normalizeFinish i l).get? n = (l.get? n).map (fun s => finishOne (i + n) s) := by
  induction l with
  | nil => intro i n; simp [normalizeFinish]
  | cons s l ih =>
    intro i n
    cases n with
    | zero => simp [normalizeFinish]
    | succ m =>
      simp only [normalizeFinish, List.get?_cons_succ, ih (i + 1) m]
      have : i + 1 + m = i + (m + 1) := by omega
      rw [this]

theorem normalizeFinish_length (l : List (List (String × Json))) :
    ∀ i, (normalizeFinish i l).length = l.length := by
  induction l with
  | nil => intro i; simp [normalizeFinish]
  | cons s l ih => intro i; simp [normalizeFinish, ih (i + 1)]

theorem updateTextById_map_key (coll : List EntryDoc) (oid : Nat) (t : String) :
    (updateTextById coll oid t).map entryKey = coll.map entryKey := by
  induction coll with
  | nil => simp [updateTextById]
  | cons e l ih =>
    by_cases he : e.oid = oid
    · simp [updateTextById, he, entryKey]
    · simp [updateTextById, he, ih]

theorem updateTextById_length (coll : List EntryDoc) (oid : Nat) (t : String) :
    (updateTextById coll oid t).length = coll.length := by
  have h := congrArg List.length (updateTextById_map_key coll oid t)
  simpa using h

theorem firstIdx_le {p : Char → Bool} :
    ∀ {cs : List Char} {i : Nat} {c : Char}, cs.get? i = some c → p c = true →
      ∃ k, firstIdx p cs = some k ∧ k ≤ i := by
  intro cs
  induction cs with
  | nil => intro i c h _; simp at h
  | cons d cs ih =>
    intro i c h hp
    by_cases hd : p d = true
    · exact ⟨0, by simp [firstIdx, hd], Nat.zero_le i⟩
    · cases i with
      | zero =>
        simp only [List.get?_cons_zero, Option.some.injEq] at h
        subst h
        exact absurd hp hd
      | succ m =>
        simp only [List.get?_cons_succ] at h
        obtain ⟨k, hk, hle⟩ := ih h hp
        exact ⟨k + 1, by simp [firstIdx, hd, hk], by omega⟩

theorem lastIdxP_ge {p : Char → Bool} :
    ∀ {cs : List Char} {j : Nat} {c : Char}, cs.get? j = some c → p c = true →
      ∃ k, lastIdxP p cs = some k ∧ j ≤ k := by
  intro cs
  induction cs with
  | nil => intro j c h _; simp at h
  | cons d cs ih =>
    intro j c h hp
    cases j with
    | zero =>
      simp only [List.get?_cons_zero, Option.some.injEq] at h
      subst h
      cases hl : lastIdxP p cs with
      | some k => exact ⟨k + 1, by simp [lastIdxP, hl], by omega⟩
      | none => exact ⟨0, by simp [lastIdxP, hl, hp], Nat.le_refl 0⟩
    | succ m =>
      simp only [List.get?_cons_succ] at h
      obtain ⟨k, hk, hle⟩ := ih h hp
      exact ⟨k + 1, by simp [lastIdxP, hk], by omega⟩

theorem cGet_cSet_isSome (c : Cache) (k k0 : String) (v : Int × String)
    (h : (cGet c k0).isSome = true) : (cGet (cSet c k v) k0).isSome = true :=
  alGet_alSet_isSome c k k0 v h

theorem applyCache_isSome (op : AiOp) (c : Cache) (k : String)
    (h : (cGet c k).isSome = true) : (cGet (op.applyCache c) k).isSome = true := by
  cases op with
  | coach ctx now resp =>
    simp only [AiOp.applyCache, get_coaching_suggestion]
    split
    · split
      · exact h
      · exact cGet_cSet_isSome c (cache_key ctx) k _ h
    · exact cGet_cSet_isSome c (cache_key ctx) k _ h
  | evalEntry g e jn d now resp =>
    simp only [AiOp.applyCache, get_entry_evaluation]
    split
    · split
      · exact h
      · exact cGet_cSet_isSome c (eval_cache_key g e d) k _ h
    · exact cGet_cSet_isSome c (eval_cache_key g e d) k _ h
  | breakdown goal parsed bf => exact h

theorem applyCache_preserves (op : AiOp) (c : Cache) (k : String) (v : Int × String)
    (h : cGet c k = some v) :
    cGet (op.applyCache c) k = some v ∨ op.writesKey = some k := by
  cases op with
  | coach ctx now resp =>
    by_cases hk : k = cache_key ctx
    · exact Or.inr (by simp [AiOp.writesKey, hk])
    · refine Or.inl ?_
      simp only [AiOp.applyCache, get_coaching_suggestion]
      split
      · split
        · exact h
        · rw [show cGet (cSet c (cache_key ctx) (now + CACHE_TTL_SECONDS, resp)) k =
                cGet c k from alGet_alSet_ne c (cache_key ctx) k _ hk]
          exact h
      · rw [show cGet (cSet c (cache_key ctx) (now + CACHE_TTL_SECONDS, resp)) k =
              cGet c k from alGet_alSet_ne c (cache_key ctx) k _ hk]
        exact h
  | evalEntry g e jn d now resp =>
    by_cases hk : k = eval_cache_key g e d
    · exact Or.inr (by simp [AiOp.writesKey, hk])
    · refine Or.inl ?_
      simp only [AiOp.applyCache, get_entry_evaluation]
      split
      · split
        · exact h
        · rw [show cGet (cSet c (eval_cache_key g e d) (now + CACHE_TTL_SECONDS, resp)) k =
                cGet c k from alGet_alSet_ne c (eval_cache_key g e d) k _ hk]
          exact h
      · rw [show cGet (cSet c (eval_cache_key g e d) (now + CACHE_TTL_SECONDS, resp)) k =
              cGet c k from alGet_alSet_ne c (eval_cache_key g e d) k _ hk]
        exact h
  | breakdown goal parsed bf => exact Or.inl h

theorem applyOps_cons (op : AiOp) (ops : List AiOp) (c : Cache) :
    applyOps (op :: ops) c = applyOps ops (op.applyCache c) := rfl

/-! ## Claim theorems -/

/-- C9: for every goal string that is empty or consists only of
    whitespace, `get_goal_breakdown` returns the empty list and makes no
    model call at all (neither the primary call nor the backfill call). -/
theorem breakdown_empty_goal_no_model_calls (goal : String) (parsed bf : Option Json)
    (h : pyStrip goal = "") :
    get_goal_breakdown goal parsed bf = ⟨[], false, []⟩ := by
  rw [get_goal_breakdown, if_pos (by simp [h])]

/-- Witness for C9 at the whitespace-only goal `"   "`. -/
theorem breakdown_empty_goal_no_model_calls_witness :
    pyStrip "   " = "" ∧ get_goal_breakdown "   " none none = ⟨[], false, []⟩ :=
  ⟨by decide, breakdown_empty_goal_no_model_calls "   " none none (by decide)⟩

/-- C4: when the goal is non-empty and parsing plus meta filtering of the
    first response yields `n < 8` steps, `get_goal_breakdown` makes
    exactly one backfill call asking for the missing `8 - n` steps
    starting at order `n + 1` with the existing titles, appends from its
    result only steps passing the title/meta/duplicate checks, and trims
    the combined list to at most 8 steps. -/
theorem breakdown_backfill_called_once (goal : String) (parsed bf : Option Json)
    (hg : pyStrip goal ≠ "") (hn : (sortedPrimary parsed).length < 8) :
    (get_goal_breakdown goal parsed bf).backfillCalls =
      [⟨(sortedPrimary parsed).map (fun s => s.title), (sortedPrimary parsed).length + 1,
        8 - (sortedPrimary parsed).length⟩] ∧
    (∃ added, backfillLoop (sortedPrimary parsed) (genConcreteSteps bf) =
        sortedPrimary parsed ++ added ∧ (∀ s ∈ added, s.title ≠ "") ∧
        (get_goal_breakdown goal parsed bf).steps =
          renumber ((sortedPrimary parsed ++ added).take 8)) ∧
    (get_goal_breakdown goal parsed bf).steps.length ≤ 8 ∧
    (∀ acc st s, processBackfillStep acc st = Except.ok (some s) →
      ∃ t d, getStrOr st "title" = .ok t ∧ getStrOr st "description" = .ok d ∧ t ≠ "" ∧
        is_meta_goal_step (pyLower (t ++ " " ++ d)) = false ∧
        (∀ x ∈ acc, pyLower t ≠ pyLower x.title)) := by
  have hbe : ¬ ((pyStrip goal == "") = true) := by simpa using hg
  have hcond : pyStrip goal ≠ "" ∧ (sortedPrimary parsed).length < 8 := ⟨hg, hn⟩
  have hggb : get_goal_breakdown goal parsed bf =
      ⟨renumber ((backfillLoop (sortedPrimary parsed) (genConcreteSteps bf)).take 8), true,
       [⟨(sortedPrimary parsed).map (fun s => s.title), (sortedPrimary parsed).length + 1,
         8 - (sortedPrimary parsed).length⟩]⟩ := by
    rw [get_goal_breakdown, if_neg hbe]
    simp only [preTrimSteps, backfillCallsOf]
    rw [if_pos hcond, if_pos hcond]
  refine ⟨by rw [hggb], ?_, ?_, ?_⟩
  · obtain ⟨added, heq, hne⟩ := backfillLoop_append (genConcreteSteps bf) (sortedPrimary parsed)
    exact ⟨added, heq, hne, by rw [hggb, heq]⟩
  · rw [hggb]
    show (renumber _).length ≤ 8
    rw [renumber, renumberFrom_length]
    rw [List.length_take]
    exact Nat.min_le_left _ _
  · intro acc st s h
    obtain ⟨t, d, ht, hd, htne, hm, hdup, _⟩ := processBackfillStep_ok_some h
    exact ⟨t, d, ht, hd, htne, hm, hdup⟩

/-- Witness for C4: goal `"g"`, unparseable first response, unparseable
    backfill response — one backfill call asking for all 8 steps. -/
theorem breakdown_backfill_called_once_witness :
    pyStrip "g" ≠ "" ∧ (sortedPrimary (none : Option Json)).length < 8 ∧
    (get_goal_breakdown "g" none none).backfillCalls = [⟨[], 1, 8⟩] :=
  ⟨by decide, by decide,
   (breakdown_backfill_called_once "g" none none (by decide) (by decide)).1⟩

/-- C1 counterexample: the claim says no *returned* step's lowercased
    title/description concatenation matches a meta pattern, but a parsed
    step with an empty title and the id `"set-goals"` passes the filter
    (its checked combo is `" "`) and is returned with the kebab id as its
    title, whose combo `"set-goals "` matches `\bset(ting)?\b[^\n]*\bgoals?\b`. -/
theorem breakdown_returned_meta_title_cex :
    (get_goal_breakdown "g" metaIdResponse none).steps.map
      (fun s => is_meta_goal_step (pyLower (s.title ++ " " ++ s.description))) = [true] := by
  decide

/-- C1 (amended): the meta filter is applied, for steps of both the first
    and the backfill response, to the stripped *pre-truncation* title and
    description; every accepted step's checked combo is non-meta (the
    final stored title — possibly the id fallback or truncated — is not
    re-checked). -/
theorem breakdown_meta_filter_on_source_fields :
    (∀ idx j s, processRawStep idx j = Except.ok (some s) →
      ∃ c, checkedCombo j = some c ∧ is_meta_goal_step c = false) ∧
    (∀ acc st s, processBackfillStep acc st = Except.ok (some s) →
      ∃ c, checkedCombo st = some c ∧ is_meta_goal_step c = false) := by
  constructor
  · intro idx j s h
    exact processRawStep_ok_some h
  · intro acc st s h
    obtain ⟨t, d, ht, hd, _, hm, _, _⟩ := processBackfillStep_ok_some h
    exact ⟨pyLower (t ++ " " ++ d), by simp [checkedCombo, ht, hd], hm⟩

/-- Witness for the amended C1 at a concrete accepted step. -/
theorem breakdown_meta_filter_on_source_fields_witness :
    processRawStep 1 benignStepJson =
      Except.ok (some ⟨"read-a-book", "Read a book", "", "", 1⟩) ∧
    ∃ c, checkedCombo benignStepJson = some c ∧ is_meta_goal_step c = false :=
  ⟨by rfl, breakdown_meta_filter_on_source_fields.1 1 benignStepJson
      ⟨"read-a-book", "Read a book", "", "", 1⟩ (by rfl)⟩

/-- C3 counterexample: steps parsed from the first model response are not
    deduplicated — a response repeating the title `"Run daily"` yields a
    returned list with two case-insensitively equal titles. -/
theorem breakdown_duplicate_titles_cex :
    hasDupTitleLower (get_goal_breakdown "g" dupTitleResponse none).steps = true := by
  decide

/-- C3 (amended): only backfill appends are deduplicated — every step
    accepted by the backfill loop has a nonempty source title that is
    case-insensitively distinct from the stored titles of all steps
    already in the list; primary steps are not checked against each
    other. -/
theorem backfill_dedup_on_existing_titles (acc : List Step) (st : Json) (s : Step)
    (h : processBackfillStep acc st = Except.ok (some s)) :
    ∃ t, getStrOr st "title" = .ok t ∧ t ≠ "" ∧ s.title = pyTake t 80 ∧
      ∀ x ∈ acc, pyLower t ≠ pyLower x.title := by
  obtain ⟨t, d, ht, _, htne, _, hdup, hst⟩ := processBackfillStep_ok_some h
  exact ⟨t, ht, htne, hst, hdup⟩

/-- Witness for the amended C3 at a concrete accepted backfill step. -/
theorem backfill_dedup_on_existing_titles_witness :
    processBackfillStep [⟨"a", "A", "", "", 1⟩] freshTitleStep =
      Except.ok (some ⟨"b", "B", "", "", 2⟩) ∧
    ∃ t, getStrOr freshTitleStep "title" = .ok t ∧ t ≠ "" ∧
      (⟨"b", "B", "", "", 2⟩ : Step).title = pyTake t 80 ∧
      ∀ x ∈ [(⟨"a", "A", "", "", 1⟩ : Step)], pyLower t ≠ pyLower x.title :=
  ⟨by rfl, backfill_dedup_on_existing_titles [⟨"a", "A", "", "", 1⟩] freshTitleStep
      ⟨"b", "B", "", "", 2⟩ (by rfl)⟩

/-- C2 counterexample: the combined step list is *not* sorted by original
    `order` values before trimming — the sort happens before the backfill
    extension, so a backfill step with a smaller order is appended after
    larger primary orders (primary order 5, backfill order 1). -/
theorem breakdown_pretrim_not_sorted_cex :
    isSortedByKey (fun s : Step => s.order)
      (preTrimSteps "g" orderFiveResponse orderOneBackfill) = false ∧
    (get_goal_breakdown "g" orderFiveResponse orderOneBackfill).steps.map
      (fun s => s.id) = ["a", "b"] := by
  constructor
  · decide
  · decide

/-- C2 (amended): the returned list has length at most 8 and its `i`-th
    step's order equals `i + 1`; the steps parsed from the first response
    are sorted by their original orders before the backfill extension
    (not the combined pre-trim list); `_normalize_steps` trims to 8,
    renumbers orders to `1..n`, ensures `completed`, and (for
    integer-comparable order keys) sorts by the original orders. -/
theorem breakdown_normalize_trim_renumber :
    (∀ goal parsed bf, (get_goal_breakdown goal parsed bf).steps.length ≤ 8) ∧
    (∀ goal parsed bf i s, (get_goal_breakdown goal parsed bf).steps.get? i = some s →
      s.order = Int.ofNat i + 1) ∧
    (∀ parsed, isSortedByKey (fun s : Step => s.order) (sortedPrimary parsed) = true) ∧
    (∀ j, (_normalize_steps j).length ≤ 8) ∧
    (∀ j, allOrdersSortable (dictsOf j) = true →
      isSortedByKey dictKeyInt (normalizeSort (dictsOf j)) = true) ∧
    (∀ j i s, (_normalize_steps j).get? i = some s →
      alGet s "order" = some (Json.num (Int.ofNat i + 1)) ∧
      (alGet s "completed").isSome = true) := by
  refine ⟨?_, ?_, ?_, ?_, ?_, ?_⟩
  · intro goal parsed bf
    by_cases hg : (pyStrip goal == "") = true
    · rw [get_goal_breakdown, if_pos hg]
      simp
    · rw [get_goal_breakdown, if_neg hg]
      show (renumber _).length ≤ 8
      rw [renumber, renumberFrom_length, List.length_take]
      exact Nat.min_le_left _ _
  · intro goal parsed bf i s h
    by_cases hg : (pyStrip goal == "") = true
    · rw [get_goal_breakdown, if_pos hg] at h
      simp at h
    · rw [get_goal_breakdown, if_neg hg] at h
      have hr : (renumber ((preTrimSteps goal parsed bf).take 8)).get? i =
          (((preTrimSteps goal parsed bf).take 8).get? i).map
            (fun s => { s with order := Int.ofNat (1 + i) }) :=
        renumberFrom_get? _ 1 i
      have h2 : (renumber ((preTrimSteps goal parsed bf).take 8)).get? i = some s := h
      rw [hr] at h2
      obtain ⟨s0, h0, hs0⟩ := Option.map_eq_some'.mp h2
      rw [← hs0]
      show ((1 + i : Nat) : Int) = (i : Int) + 1
      omega
  · intro parsed
    exact isSortedByKey_sortByKey (fun s : Step => s.order) (primaryStepsOf parsed)
  · intro j
    rw [_normalize_steps]
    by_cases hl : (normalizeSort (dictsOf j)).length > 8
    · rw [if_pos hl, normalizeFinish_length, List.length_take]
      exact Nat.min_le_left _ _
    · rw [if_neg hl, normalizeFinish_length]
      omega
  · intro j hs
    rw [normalizeSort, if_pos hs]
    exact isSortedByKey_sortByKey dictKeyInt (dictsOf j)
  · intro j i s h
    have h2 : (normalizeFinish 1 (if (normalizeSort (dictsOf j)).length > 8 then
        (normalizeSort (dictsOf j)).take 8 else normalizeSort (dictsOf j))).get? i =
        some s := h
    rw [normalizeFinish_get?] at h2
    obtain ⟨s0, h0, hs0⟩ := Option.map_eq_some'.mp h2
    rw [← hs0]
    constructor
    · rw [finishOne_order]
      rw [show Int.ofNat (1 + i) = Int.ofNat i + 1 from by
        show ((1 + i : Nat) : Int) = (i : Int) + 1
        omega]
    · exact finishOne_completed _ _

/-- Witness for the amended C2: concrete breakdown output and a concrete
    unsorted `_normalize_steps` input with integer orders. -/
theorem breakdown_normalize_trim_renumber_witness :
    (get_goal_breakdown "g" orderFiveResponse none).steps.get? 0 =
      some ⟨"a", "A", "", "", 1⟩ ∧
    (⟨"a", "A", "", "", 1⟩ : Step).order = Int.ofNat 0 + 1 ∧
    allOrdersSortable (dictsOf normListInput) = true ∧
    isSortedByKey dictKeyInt (normalizeSort (dictsOf normListInput)) = true :=
  ⟨by rfl,
   breakdown_normalize_trim_renumber.2.1 "g" orderFiveResponse none 0
     ⟨"a", "A", "", "", 1⟩ (by rfl),
   by rfl,
   breakdown_normalize_trim_renumber.2.2.2.2.1 normListInput (by rfl)⟩

/-- C7: `get_goal_breakdown` tolerates arbitrary model output — the
    regex extracts the first-`{`-to-last-`}` span whenever one exists;
    with no match the stripped text is parsed as is; and whenever the
    parse fails or yields no dict with a `"steps"` list, the primary step
    list is empty and the returned list consists only of backfilled
    steps. -/
theorem breakdown_tolerates_malformed_response :
    (∀ raw i j, i < j → (pyStrip raw).toList.get? i = some '{' →
      (pyStrip raw).toList.get? j = some '}' → hasBraceMatch raw = true) ∧
    (∀ raw, hasBraceMatch raw = false → extractPlanJson raw = pyStrip raw) ∧
    (∀ goal parsed bf, stepsArr parsed = none →
      primaryStepsOf parsed = [] ∧
      (pyStrip goal ≠ "" →
        (get_goal_breakdown goal parsed bf).steps =
          renumber ((backfillLoop [] (genConcreteSteps bf)).take 8))) := by
  refine ⟨?_, ?_, ?_⟩
  · intro raw i j hij hi hj
    obtain ⟨i0, hfi, hi0⟩ := firstIdx_le (p := (· == '{')) hi (by rfl)
    obtain ⟨j0, hlj, hj0⟩ := lastIdxP_ge (p := (· == '}')) hj (by rfl)
    have hlt : i0 < j0 := by omega
    unfold hasBraceMatch braceSpan
    rw [hfi, hlj]
    simp [hlt]
  · intro raw h
    unfold hasBraceMatch at h
    show (match braceSpan (pyStrip raw).toList with
          | some sub => String.mk sub
          | none => pyStrip raw) = pyStrip raw
    cases hb : braceSpan (pyStrip raw).toList with
    | some sub => rw [hb] at h; simp at h
    | none => rfl
  · intro goal parsed bf hs
    have hprim : primaryStepsOf parsed = [] := by
      show (match stepsArr parsed with
            | some items =>
              match stepsLoop 1 items with
              | .ok l => l
              | .error _ => []
            | none => []) = []
      rw [hs]
    have hsort : sortedPrimary parsed = [] := by
      rw [sortedPrimary, hprim]
      rfl
    refine ⟨hprim, fun hg => ?_⟩
    have hpre : preTrimSteps goal parsed bf = backfillLoop [] (genConcreteSteps bf) := by
      simp only [preTrimSteps]
      rw [hsort]
      rw [if_pos ⟨hg, by decide⟩]
    rw [show get_goal_breakdown goal parsed bf =
          ⟨renumber ((preTrimSteps goal parsed bf).take 8), true,
           backfillCallsOf goal parsed⟩ from by
        rw [get_goal_breakdown, if_neg (by simpa using hg)]]
    rw [hpre]

/-- Witness for C7: a concrete brace match, a braceless response, and a
    non-dict parsed response yielding no primary steps. -/
theorem breakdown_tolerates_malformed_response_witness :
    ((0 : Nat) < 1 ∧ (pyStrip " {} ").toList.get? 0 = some '{' ∧
      (pyStrip " {} ").toList.get? 1 = some '}') ∧
    hasBraceMatch " {} " = true ∧
    (hasBraceMatch "no json here" = false ∧
      extractPlanJson "no json here" = pyStrip "no json here") ∧
    (stepsArr (some (Json.str "oops")) = none ∧
      primaryStepsOf (some (Json.str "oops")) = []) :=
  ⟨⟨by decide, by rfl, by rfl⟩,
   breakdown_tolerates_malformed_response.1 " {} " 0 1 (by decide) (by rfl) (by rfl),
   ⟨by rfl, breakdown_tolerates_malformed_response.2.1 "no json here" (by rfl)⟩,
   ⟨by rfl, (breakdown_tolerates_malformed_response.2.2 "g"
      (some (Json.str "oops")) none (by rfl)).1⟩⟩

/-- C5: two `get_coaching_suggestion` calls with equal `CoachingContext`
    field values, the second within `CACHE_TTL_SECONDS` of a first call
    that hit the model (and so stored its result), return the stored
    string on the second call without a new model call and without
    changing the cache. -/
theorem coaching_cached_within_ttl (ctx1 ctx2 : CoachingContext) (t0 t1 : Int)
    (r0 r1 : String) (c0 : Cache)
    (hg : ctx1.goal = ctx2.goal) (hre : ctx1.recent_entries = ctx2.recent_entries)
    (hj : ctx1.journal_name = ctx2.journal_name) (hm : ctx1.max_tokens = ctx2.max_tokens)
    (hmiss : (get_coaching_suggestion ctx1 t0 r0 c0).modelCalled = true)
    (ht : t1 < t0 + CACHE_TTL_SECONDS) :
    get_coaching_suggestion ctx2 t1 r1 (get_coaching_suggestion ctx1 t0 r0 c0).cache =
      ⟨(get_coaching_suggestion ctx1 t0 r0 c0).value,
       (get_coaching_suggestion ctx1 t0 r0 c0).cache, false⟩ := by
  have hkey : cache_key ctx2 = cache_key ctx1 := by
    rw [cache_key, cache_key, hg, hre, hj, hm]
  have hrun : get_coaching_suggestion ctx1 t0 r0 c0 =
      ⟨r0, cSet c0 (cache_key ctx1) (t0 + CACHE_TTL_SECONDS, r0), true⟩ := by
    revert hmiss
    simp only [get_coaching_suggestion]
    split
    · split
      · intro hmiss; exact Bool.noConfusion hmiss
      · intro _; rfl
    · intro _; rfl
  rw [hrun]
  show get_coaching_suggestion ctx2 t1 r1
      (cSet c0 (cache_key ctx1) (t0 + CACHE_TTL_SECONDS, r0)) =
    ⟨r0, cSet c0 (cache_key ctx1) (t0 + CACHE_TTL_SECONDS, r0), false⟩
  simp only [get_coaching_suggestion, hkey]
  have hself : cGet (cSet c0 (cache_key ctx1) (t0 + CACHE_TTL_SECONDS, r0))
      (cache_key ctx1) = some (t0 + CACHE_TTL_SECONDS, r0) :=
    alGet_alSet_self c0 (cache_key ctx1) (t0 + CACHE_TTL_SECONDS, r0)
  split
  next ev hev =>
    rw [hev] at hself
    have hv : ev = (t0 + CACHE_TTL_SECONDS, r0) := by
      exact (Option.some.injEq _ _ ▸ hself)
    subst hv
    rw [if_pos ht]
  next hev =>
    rw [hev] at hself
    exact Option.noConfusion hself

/-- Witness for C5 at a concrete context, times 0 and 10, empty cache. -/
theorem coaching_cached_within_ttl_witness :
    (get_coaching_suggestion ⟨some "go", "re", none, 350⟩ 0 "sugg" []).modelCalled = true ∧
    (10 : Int) < 0 + CACHE_TTL_SECONDS ∧
    get_coaching_suggestion ⟨some "go", "re", none, 350⟩ 10 "other"
        (get_coaching_suggestion ⟨some "go", "re", none, 350⟩ 0 "sugg" []).cache =
      ⟨"sugg", (get_coaching_suggestion ⟨some "go", "re", none, 350⟩ 0 "sugg" []).cache,
       false⟩ :=
  ⟨by rfl, by decide,
   coaching_cached_within_ttl ⟨some "go", "re", none, 350⟩ ⟨some "go", "re", none, 350⟩
     0 10 "sugg" "other" [] rfl rfl rfl rfl (by rfl) (by decide)⟩

/-- C6: the AI cache is unbounded with no eviction — no operation of the
    AI client ever removes a key (keys are monotone over any operation
    sequence), and an entry's value survives any single operation unless
    that operation writes that very key. -/
theorem ai_cache_never_evicts :
    (∀ ops c k, (cGet c k).isSome = true → (cGet (applyOps ops c) k).isSome = true) ∧
    (∀ op c k v, cGet c k = some v →
      cGet (AiOp.applyCache op c) k = some v ∨ AiOp.writesKey op = some k) := by
  constructor
  · intro ops
    induction ops with
    | nil => intro c k h; exact h
    | cons op ops ih =>
      intro c k h
      rw [applyOps_cons]
      exact ih _ k (applyCache_isSome op c k h)
  · exact applyCache_preserves

/-- Witness for C6: a preexisting key survives a breakdown call and a
    coaching call. -/
theorem ai_cache_never_evicts_witness :
    (cGet [("k", ((5 : Int), "v"))] "k").isSome = true ∧
    (cGet (applyOps [AiOp.breakdown "g" none none,
        AiOp.coach ⟨none, "", none, 350⟩ 0 "x"] [("k", ((5 : Int), "v"))]) "k").isSome = true :=
  ⟨by rfl, ai_cache_never_evicts.1 [AiOp.breakdown "g" none none,
      AiOp.coach ⟨none, "", none, 350⟩ 0 "x"] [("k", ((5 : Int), "v"))] "k" (by rfl)⟩

/-- C8: `create_entry` appends per day — when an entry document already
    exists for `(journal_id, user_id, date)`, the new timestamped line is
    appended to that document's text (no new document), and the
    at-most-one-document-per-key invariant is preserved by every
    successful call. -/
theorem create_entry_appends_per_day (coll : List EntryDoc) (jid uid rawText : String)
    (dateOpt : Option String) (serverDate : String) (timeOpt : Option String)
    (serverTime : String) (freshId : Nat) (hinv : entriesKeyInv coll) :
    (∀ c2 m, create_entry coll jid uid rawText dateOpt serverDate timeOpt serverTime freshId =
        .ok (c2, m) → entriesKeyInv c2) ∧
    (∀ e, pyStrip rawText ≠ "" →
      findEntry coll jid uid (resolveOpt dateOpt serverDate) = some e →
      create_entry coll jid uid rawText dateOpt serverDate timeOpt serverTime freshId =
        .ok (updateTextById coll e.oid
              (if e.text == "" then
                 "[" ++ resolveOpt timeOpt serverTime ++ "] " ++ pyStrip rawText
               else e.text ++ "\n" ++
                 ("[" ++ resolveOpt timeOpt serverTime ++ "] " ++ pyStrip rawText)),
             "Entry appended")) ∧
    (∀ oid t, (updateTextById coll oid t).length = coll.length) := by
  refine ⟨?_, ?_, fun oid t => updateTextById_length coll oid t⟩
  · intro c2 m h
    simp only [create_entry] at h
    by_cases hte : (pyStrip rawText == "") = true
    · rw [if_pos hte] at h
      exact Except.noConfusion h
    · rw [if_neg hte] at h
      cases hf : findEntry coll jid uid (resolveOpt dateOpt serverDate) with
      | some e =>
        rw [hf] at h
        simp only [Except.ok.injEq, Prod.mk.injEq] at h
        rw [← h.1]
        have hm := updateTextById_map_key coll e.oid
          (if e.text == "" then
             "[" ++ resolveOpt timeOpt serverTime ++ "] " ++ pyStrip rawText
           else e.text ++ "\n" ++
             ("[" ++ resolveOpt timeOpt serverTime ++ "] " ++ pyStrip rawText))
        have h1 : ((updateTextById coll e.oid
            (if e.text == "" then
               "[" ++ resolveOpt timeOpt serverTime ++ "] " ++ pyStrip rawText
             else e.text ++ "\n" ++
               ("[" ++ resolveOpt timeOpt serverTime ++ "] " ++ pyStrip rawText))).map
              entryKey).Pairwise (fun a b => a ≠ b) := by
          rw [hm]
          exact List.pairwise_map.mpr hinv
        exact List.pairwise_map.mp h1
      | none =>
        rw [hf] at h
        simp only [Except.ok.injEq, Prod.mk.injEq] at h
        rw [← h.1]
        rw [entriesKeyInv, List.pairwise_append]
        refine ⟨hinv, List.pairwise_singleton _ _, ?_⟩
        intro a ha b hb
        simp only [List.mem_singleton] at hb
        subst hb
        intro hk
        have hfe2 : coll.find? (fun e => e.journal_id == jid && e.user_id == uid &&
            e.date == resolveOpt dateOpt serverDate) = none := hf
        have hnone := List.find?_eq_none.mp hfe2 a ha
        simp only [entryKey, Prod.mk.injEq] at hk
        exact hnone (by simp [hk.1, hk.2.1, hk.2.2])
  · intro e hne hf
    simp only [create_entry]
    rw [if_neg (by simpa using hne), hf]

/-- Witness for C8: appending a second line of the same day to an
    existing entry document. -/
theorem create_entry_appends_per_day_witness :
    entriesKeyInv [⟨1, "j", "u", "d", "old"⟩] ∧
    create_entry [⟨1, "j", "u", "d", "old"⟩] "j" "u" " hi " (some "d") "sd"
        (some "10:00:00") "st" 2 =
      .ok ([⟨1, "j", "u", "d", "old\n[10:00:00] hi"⟩], "Entry appended") :=
  ⟨by simp [entriesKeyInv],
   (create_entry_appends_per_day [⟨1, "j", "u", "d", "old"⟩] "j" "u" " hi "
      (some "d") "sd" (some "10:00:00") "st" 2 (by simp [entriesKeyInv])).2.1
     ⟨1, "j", "u", "d", "old"⟩ (by decide) (by rfl)⟩

/-- C10: daily evaluations are deduplicated and ephemeral — with today's
    evaluation stored, `coach_evaluate_entry` returns it without calling
    the model; otherwise it deletes every evaluation of that journal and
    user with a different date before inserting today's; every successful
    call preserves at most one evaluation document per
    `(journal_id, user_id)`. -/
theorem evaluate_entry_dedup_ephemeral (evals : List EvalDoc) (entries : List EntryDoc)
    (jid uid isoToday padded unpadded modelResp : String)
    (hinv : evalsKeyInv evals) :
    (∀ e, findEval evals jid uid isoToday = some e →
      coach_evaluate_entry evals entries jid uid isoToday padded unpadded modelResp =
        .ok (e.evaluation, evals, false)) ∧
    (∀ v c2 b, coach_evaluate_entry evals entries jid uid isoToday padded unpadded modelResp =
        .ok (v, c2, b) → evalsKeyInv c2) ∧
    (findEval evals jid uid isoToday = none →
      ∀ ed, entries.find? (fun e => e.journal_id == jid && e.user_id == uid &&
          (e.date == padded || e.date == unpadded)) = some ed →
      coach_evaluate_entry evals entries jid uid isoToday padded unpadded modelResp =
        .ok (modelResp,
             (evals.filter fun d => !(d.journal_id == jid && d.user_id == uid &&
                !(d.date == isoToday))) ++ [⟨jid, uid, isoToday, modelResp⟩], true)) := by
  refine ⟨?_, ?_, ?_⟩
  · intro e he
    simp only [coach_evaluate_entry]
    rw [he]
  · intro v c2 b h
    simp only [coach_evaluate_entry] at h
    cases hfe : findEval evals jid uid isoToday with
    | some e =>
      rw [hfe] at h
      simp only [Except.ok.injEq, Prod.mk.injEq] at h
      rw [← h.2.1]
      exact hinv
    | none =>
      rw [hfe] at h
      cases hfd : entries.find? (fun e => e.journal_id == jid && e.user_id == uid &&
          (e.date == padded || e.date == unpadded)) with
      | none =>
        rw [hfd] at h
        exact Except.noConfusion h
      | some ed =>
        rw [hfd] at h
        simp only [Except.ok.injEq, Prod.mk.injEq] at h
        rw [← h.2.1]
        have hkinv : evalsKeyInv (evals.filter fun d =>
            !(d.journal_id == jid && d.user_id == uid && !(d.date == isoToday))) :=
          hinv.sublist (List.filter_sublist _)
        rw [evalsKeyInv, List.pairwise_append]
        refine ⟨hkinv, List.pairwise_singleton _ _, ?_⟩
        intro a ha b hb
        simp only [List.mem_singleton] at hb
        subst hb
        intro hk
        simp only [Prod.mk.injEq] at hk
        obtain ⟨hmem, hpred⟩ := List.mem_filter.mp ha
        have hdate : (a.date == isoToday) = true := by
          simp [hk.1, hk.2] at hpred
          simpa using hpred
        have hfe2 : evals.find? (fun d => d.journal_id == jid && d.user_id == uid &&
            d.date == isoToday) = none := hfe
        have hnone := List.find?_eq_none.mp hfe2 a hmem
        exact hnone (by simp [hk.1, hk.2, hdate])
  · intro hfe ed hfd
    simp only [coach_evaluate_entry]
    rw [hfe, hfd]

/-- Witness for C10: a stale evaluation is deleted and today's inserted. -/
theorem evaluate_entry_dedup_ephemeral_witness :
    evalsKeyInv [⟨"j", "u", "2025-01-01", "old eval"⟩] ∧
    findEval [⟨"j", "u", "2025-01-01", "old eval"⟩] "j" "u" "2025-01-02" = none ∧
    coach_evaluate_entry [⟨"j", "u", "2025-01-01", "old eval"⟩]
        [⟨1, "j", "u", "01/02/2025", "[x] t"⟩] "j" "u" "2025-01-02" "01/02/2025"
        "1/2/2025" "new" =
      .ok ("new", [⟨"j", "u", "2025-01-02", "new"⟩], true) :=
  ⟨by simp [evalsKeyInv], by rfl,
   (evaluate_entry_dedup_ephemeral [⟨"j", "u", "2025-01-01", "old eval"⟩]
      [⟨1, "j", "u", "01/02/2025", "[x] t"⟩] "j" "u" "2025-01-02" "01/02/2025"
      "1/2/2025" "new" (by simp [evalsKeyInv])).2.2 (by rfl)
     ⟨1, "j", "u", "01/02/2025", "[x] t"⟩ (by rfl)⟩

end JournalApp
